import Mathlib

/-!
Shallow embedding of the churn-analysis backend (`src/backend/server.py`)
for checking the natural-language specification against the code.

Conventions of the embedding:
* Python strings are Lean `String`s; string algorithms (`strip`, `replace`,
  `startswith`, `endswith`) are re-implemented over `List Char` exactly as
  CPython behaves on ASCII input (CPython `strip` also removes some exotic
  Unicode whitespace; only the ASCII whitespace set is modelled).
* The MongoDB collection is a list of documents, a document an ordered
  association list of field name to value, mirroring Python dict semantics
  (insertion order, unique keys, update-in-place).
* External collaborators (pandas, the Gemini SDK, the filesystem) are
  modelled by their observable outcome (`Except`): row count or exception
  text, response text or exception text, file-removal success or exception.
* `json.loads` is modelled by an executable recursive-descent parser of the
  JSON grammar CPython accepts (including the NaN and plus-or-minus Infinity
  extensions).  Numbers keep their raw token text, so the model distinguishes
  some numerals CPython would identify (for example 1e1 and 10.0); no claim
  compares numerals across different texts, so this never matters below.
-/

namespace ChurnSpec

/-! ### Python string primitives -/

/-- The backtick character, written via its code point. -/
def btick : Char := Char.ofNat 96

/-- ASCII whitespace stripped by Python `str.strip()`. -/
def pyWs (c : Char) : Bool :=
  c = ' ' || c = '\t' || c = '\n' || c = '\r' || c = '\x0b' || c = '\x0c'

/-- Remove leading Python whitespace from a character list. -/
def lstripD : List Char → List Char
  | [] => []
  | c :: r => if pyWs c then lstripD r else c :: r

/-- Remove trailing Python whitespace from a character list. -/
def rstripD (xs : List Char) : List Char := (lstripD xs.reverse).reverse

/-- Python `str.strip()` on a character list. -/
def stripD (xs : List Char) : List Char := rstripD (lstripD xs)

/-- Python `str.strip()`. -/
def pyStrip (s : String) : String := ⟨stripD s.data⟩

/-- Python `str.startswith(pre)`. -/
def pyStartsWith (s pre : String) : Bool := pre.data.isPrefixOf s.data

/-- Python `str.endswith(suffix)`. -/
def pyEndsWith (s suffix : String) : Bool := suffix.data.isSuffixOf s.data

/-- Fuelled worker for Python `str.replace(pat, repl)`: scan left to right,
replacing each non-overlapping occurrence of `pat`.  A step always consumes
at least one character, so fuel equal to the input length is enough; an empty
pattern (which CPython treats specially, never used by the program) is left
alone. -/
def replaceAux (pat repl : List Char) : Nat → List Char → List Char
  | _, [] => []
  | 0, xs => xs
  | f + 1, c :: r =>
    if pat.isPrefixOf (c :: r) && !pat.isEmpty then
      repl ++ replaceAux pat repl f (r.drop (pat.length - 1))
    else
      c :: replaceAux pat repl f r

/-- Python `s.replace(pat, repl)`. -/
def pyReplace (s pat repl : String) : String :=
  ⟨replaceAux pat.data repl.data s.data.length s.data⟩

/-- Does `pat` occur as a contiguous run anywhere in `xs`? -/
def containsSeq (pat : List Char) : List Char → Bool
  | [] => pat.isEmpty
  | c :: r => pat.isPrefixOf (c :: r) || containsSeq pat r

/-! ### JSON values and the model of `json.loads` -/

/-- Parsed JSON values.  Numbers keep the raw numeral token. -/
inductive Json where
  | null : Json
  | bool (b : Bool) : Json
  | num (raw : String) : Json
  | str (s : String) : Json
  | arr (elems : List Json) : Json
  | obj (fields : List (String × Json)) : Json

/-- JSON whitespace accepted by CPython's `json.loads` between tokens. -/
def isJsonWsC (c : Char) : Bool := c = ' ' || c = '\t' || c = '\n' || c = '\r'

/-- Skip JSON whitespace. -/
def skipJsonWs : List Char → List Char
  | [] => []
  | c :: r => if isJsonWsC c then skipJsonWs r else c :: r

/-- ASCII decimal digit test. -/
def isDigitC (c : Char) : Bool := '0' ≤ c && c ≤ '9'

/-- Split a longest run of digits off the front. -/
def takeDigits : List Char → List Char × List Char
  | [] => ([], [])
  | c :: r =>
    if isDigitC c then
      let p := takeDigits r
      (c :: p.1, p.2)
    else ([], c :: r)

/-- Optional fraction part `.digits` of a JSON number. -/
def parseFrac (acc : List Char) (xs : List Char) : Option (List Char × List Char) :=
  match xs with
  | '.' :: r =>
    let p := takeDigits r
    if p.1.isEmpty then none else some (acc ++ '.' :: p.1, p.2)
  | _ => some (acc, xs)

/-- Optional exponent part `e[+-]digits` of a JSON number. -/
def parseExp (acc : List Char) (xs : List Char) : Option (List Char × List Char) :=
  match xs with
  | c :: r =>
    if c = 'e' || c = 'E' then
      let sp : List Char × List Char :=
        match r with
        | s :: rr => if s = '+' || s = '-' then ([s], rr) else ([], s :: rr)
        | [] => ([], [])
      let p := takeDigits sp.2
      if p.1.isEmpty then none else some (acc ++ c :: (sp.1 ++ p.1), p.2)
    else some (acc, c :: r)
  | [] => some (acc, [])

/-- Fraction then exponent. -/
def afterIntPart (acc : List Char) (xs : List Char) : Option (List Char × List Char) := do
  let p ← parseFrac acc xs
  parseExp p.1 p.2

/-- Lex one JSON number token (grammar `-?(0|[1-9][0-9]*)(.d+)?([eE][+-]?d+)?`),
returning the token text and the rest. -/
def parseNumber (xs : List Char) : Option (List Char × List Char) :=
  let sp : List Char × List Char :=
    match xs with
    | '-' :: r => (['-'], r)
    | _ => ([], xs)
  match sp.2 with
  | '0' :: r => afterIntPart (sp.1 ++ ['0']) r
  | c :: r =>
    if isDigitC c then
      let p := takeDigits r
      afterIntPart (sp.1 ++ c :: p.1) p.2
    else none
  | [] => none

/-- One shortened escape `\c` of a JSON string. -/
def escChar (e : Char) : Option Char :=
  if e = '"' then some '"'
  else if e = '\\' then some '\\'
  else if e = '/' then some '/'
  else if e = 'b' then some '\x08'
  else if e = 'f' then some '\x0c'
  else if e = 'n' then some '\n'
  else if e = 'r' then some '\r'
  else if e = 't' then some '\t'
  else none

/-- Hexadecimal digit value, from the character code (48-57 are the digits,
97-102 lower-case a-f, 65-70 upper-case A-F). -/
def hexVal (c : Char) : Option Nat :=
  let n := c.toNat
  if 48 ≤ n ∧ n ≤ 57 then some (n - 48)
  else if 97 ≤ n ∧ n ≤ 102 then some (n - 87)
  else if 65 ≤ n ∧ n ≤ 70 then some (n - 55)
  else none

/-- Body of a JSON string after the opening quote: content characters and the
rest after the closing quote.  Strict mode: raw control characters are
rejected.  A `\uXXXX` escape is mapped through `Char.ofNat` (CPython can build
lone surrogates there, which Lean `Char` cannot represent; no claim depends on
surrogate escapes). -/
def parseStringBody : Nat → List Char → Option (List Char × List Char)
  | _, [] => none
  | 0, _ => none
  | f + 1, c :: r =>
    if c = '"' then some ([], r)
    else if c = '\\' then
      match r with
      | [] => none
      | 'u' :: h1 :: h2 :: h3 :: h4 :: r2 => do
        let v1 ← hexVal h1
        let v2 ← hexVal h2
        let v3 ← hexVal h3
        let v4 ← hexVal h4
        let p ← parseStringBody f r2
        some (Char.ofNat (((v1 * 16 + v2) * 16 + v3) * 16 + v4) :: p.1, p.2)
      | e :: r2 => do
        let d ← escChar e
        let p ← parseStringBody f r2
        some (d :: p.1, p.2)
    else if c.toNat < 32 then none
    else do
      let p ← parseStringBody f r
      some (c :: p.1, p.2)

/-- Insert a key/value pair into an ordered field list with Python dict
semantics: an existing key is updated in place, a new key appended. -/
def insertField : List (String × Json) → String → Json → List (String × Json)
  | [], k, v => [(k, v)]
  | (k', v') :: rest, k, v =>
    if k' = k then (k, v) :: rest else (k', v') :: insertField rest k v

mutual

/-- Parse one JSON value (fuelled recursive descent). -/
def parseVal : Nat → List Char → Option (Json × List Char)
  | 0, _ => none
  | f + 1, xs =>
    match skipJsonWs xs with
    | [] => none
    | c :: r =>
      if c = '\x7b' then
        match skipJsonWs r with
        | '\x7d' :: r2 => some (Json.obj [], r2)
        | r2 => parseMembers f [] r2
      else if c = '[' then
        match skipJsonWs r with
        | ']' :: r2 => some (Json.arr [], r2)
        | r2 => parseItems f [] r2
      else if c = '"' then do
        let p ← parseStringBody (r.length + 1) r
        some (Json.str ⟨p.1⟩, p.2)
      else if c = 'n' then
        match r with
        | 'u' :: 'l' :: 'l' :: r2 => some (Json.null, r2)
        | _ => none
      else if c = 't' then
        match r with
        | 'r' :: 'u' :: 'e' :: r2 => some (Json.bool true, r2)
        | _ => none
      else if c = 'f' then
        match r with
        | 'a' :: 'l' :: 's' :: 'e' :: r2 => some (Json.bool false, r2)
        | _ => none
      else if c = 'N' then
        match r with
        | 'a' :: 'N' :: r2 => some (Json.num "NaN", r2)
        | _ => none
      else if c = 'I' then
        match r with
        | 'n' :: 'f' :: 'i' :: 'n' :: 'i' :: 't' :: 'y' :: r2 =>
          some (Json.num "Infinity", r2)
        | _ => none
      else if c = '-' && (match r with | 'I' :: _ => true | _ => false) then
        match r with
        | 'I' :: 'n' :: 'f' :: 'i' :: 'n' :: 'i' :: 't' :: 'y' :: r2 =>
          some (Json.num "-Infinity", r2)
        | _ => none
      else if c = '-' || isDigitC c then do
        let p ← parseNumber (c :: r)
        some (Json.num ⟨p.1⟩, p.2)
      else none

/-- Parse the items of a non-empty JSON array after its first `[`. -/
def parseItems : Nat → List Json → List Char → Option (Json × List Char)
  | 0, _, _ => none
  | f + 1, acc, xs => do
    let p ← parseVal f xs
    match skipJsonWs p.2 with
    | ',' :: r2 => parseItems f (acc ++ [p.1]) r2
    | ']' :: r2 => some (Json.arr (acc ++ [p.1]), r2)
    | _ => none

/-- Parse the members of a non-empty JSON object after its first brace. -/
def parseMembers : Nat → List (String × Json) → List Char → Option (Json × List Char)
  | 0, _, _ => none
  | f + 1, acc, xs =>
    match skipJsonWs xs with
    | '"' :: r => do
      let p ← parseStringBody (r.length + 1) r
      match skipJsonWs p.2 with
      | ':' :: r2 => do
        let q ← parseVal f r2
        match skipJsonWs q.2 with
        | ',' :: r3 => parseMembers f (insertField acc ⟨p.1⟩ q.1) r3
        | '\x7d' :: r3 => some (Json.obj (insertField acc ⟨p.1⟩ q.1), r3)
        | _ => none
      | _ => none
    | _ => none

end

/-- Fuel amply covering any parse of `s`: containers burn at most two units of
fuel per consumed character. -/
def jsonFuel (s : String) : Nat := 2 * s.data.length + 4

/-- Model of Python `json.loads`: parse one value, then require only
whitespace to remain. -/
def json_loads (s : String) : Option Json :=
  match parseVal (jsonFuel s) s.data with
  | some p => if (skipJsonWs p.2).isEmpty then some p.1 else none
  | none => none

/-- Simplified model of `str(json.JSONDecodeError)`: CPython's message also
carries line/column/offset information, which no claim depends on; the model
keeps only the leading message text. -/
def jsonDecodeErrMsg (s : String) : String :=
  match parseVal (jsonFuel s) s.data with
  | none => "Expecting value"
  | some _ => "Extra data"

/-- Python type name of a parsed JSON value, as used in `AttributeError`
messages. -/
def pyTypeName : Json → String
  | Json.null => "NoneType"
  | Json.bool _ => "bool"
  | Json.num raw =>
    if containsSeq ['.'] raw.data || containsSeq ['e'] raw.data
        || containsSeq ['E'] raw.data || containsSeq ['I'] raw.data
        || containsSeq ['N'] raw.data then "float" else "int"
  | Json.str _ => "str"
  | Json.arr _ => "list"
  | Json.obj _ => "dict"

/-- Message of the `AttributeError` raised by `x.get(...)` on a non-dict. -/
def attrErrMsg (j : Json) : String :=
  "'" ++ pyTypeName j ++ "' object has no attribute 'get'"

/-! ### The fence-stripping step of the Background Analyzer

Model of `server.py` lines 190-194:
```text
response_text = response.strip()
if response_text.startswith('<fence>json'):
    response_text = response_text.replace('<fence>json', '').replace('<fence>', '').strip()
elif response_text.startswith('<fence>'):
    response_text = response_text.replace('<fence>', '').strip()
```
where `<fence>` is three backticks. -/

/-- Three backticks, the markdown code-fence marker. -/
def fenceD : List Char := [btick, btick, btick]

/-- The string of three backticks. -/
def fenceS : String := ⟨fenceD⟩

/-- The marker `<fence>json`: the fence with the `json` language tag. -/
def fenceJsonS : String := ⟨fenceD ++ ['j', 's', 'o', 'n']⟩

/-- The response-text normalisation performed before `json.loads`
(`server.py` lines 190-194). -/
def extractResponseText (response : String) : String :=
  let response_text := pyStrip response
  if pyStartsWith response_text fenceJsonS then
    pyStrip (pyReplace (pyReplace response_text fenceJsonS "") fenceS "")
  else if pyStartsWith response_text fenceS then
    pyStrip (pyReplace response_text fenceS "")
  else response_text

/-- A response text equal to `t` wrapped in leading and trailing code-fence
markers, with language tag `tag` (empty `tag` means a bare fence). -/
def wrapFence (tag t : String) : String :=
  ⟨fenceD ++ tag.data ++ ('\n' :: t.data) ++ '\n' :: fenceD⟩

/-! ### Documents and the store -/

/-- A stored field value: the document fields this program ever writes are
strings, ints, datetimes (modelled as `Nat` timestamps), `None`, or values
taken from the parsed AI response. -/
inductive BVal where
  | null : BVal
  | str (s : String) : BVal
  | int (n : Int) : BVal
  | dt (t : Nat) : BVal
  | json (j : Json) : BVal

/-- A document: ordered association list with Python-dict/BSON semantics. -/
abbrev Doc := List (String × BVal)

/-- The `churn_analyses` collection, in insertion order. -/
abbrev Store := List Doc

/-- Field lookup (`d[k]` / `k in d`); documents built by the program have
unique keys, so first match is the match. -/
def docGet : Doc → String → Option BVal
  | [], _ => none
  | (k', v) :: rest, k => if k' = k then some v else docGet rest k

/-- Python `del d[k]`: remove the binding of `k`. -/
def docDel : Doc → String → Doc
  | [], _ => []
  | (k', v) :: rest, k => if k' = k then rest else (k', v) :: docDel rest k

/-- Set one field (`$set` of a single key): update in place or append. -/
def docSet : Doc → String → BVal → Doc
  | [], k, v => [(k, v)]
  | (k', v') :: rest, k, v =>
    if k' = k then (k, v) :: rest else (k', v') :: docSet rest k v

/-- Apply a `$set` update document field by field. -/
def docSetMany (d : Doc) (u : List (String × BVal)) : Doc :=
  u.foldl (fun d kv => docSet d kv.1 kv.2) d

/-- Does document `d` match the analysis-id equality filter? -/
def matchesId (d : Doc) (id : String) : Bool :=
  match docGet d "analysis_id" with
  | some (BVal.str s) => s == id
  | _ => false

/-- Model of `find_one` with the id filter: first matching document, if any. -/
def findOne : Store → String → Option Doc
  | [], _ => none
  | d :: rest, id => if matchesId d id then some d else findOne rest id

/-- Model of `delete_one` with the id filter: remove the first matching document. -/
def deleteOne : Store → String → Store
  | [], _ => []
  | d :: rest, id => if matchesId d id then rest else d :: deleteOne rest id

/-- Model of `update_one` with the id filter and a set-update `u`: update the
first matching document. -/
def updateOne : Store → String → List (String × BVal) → Store
  | [], _, _ => []
  | d :: rest, id, u =>
    if matchesId d id then docSetMany d u :: rest else d :: updateOne rest id u

/-- How many documents match the id filter. -/
def countId (s : Store) (id : String) : Nat :=
  (s.filter (fun d => matchesId d id)).length

/-! ### Job Tracker operations (`server.py`) -/

/-- Result of `POST /api/upload-csv`. -/
inductive UploadResult where
  | ok (analysis_id message status : String) : UploadResult
  | badRequest (detail : String) : UploadResult

/-- Path of the saved upload under the upload directory, named from the
analysis id and the original filename (`server.py` line 87). -/
def uploadFilePath (analysis_id filename : String) : String :=
  "/app/uploads/" ++ analysis_id ++ "_" ++ filename

/-- The initial analysis record (`server.py` lines 94-105). -/
def uploadRecord (analysis_id filename : String) (now : Nat) : Doc :=
  [("analysis_id", BVal.str analysis_id),
   ("filename", BVal.str filename),
   ("file_path", BVal.str (uploadFilePath analysis_id filename)),
   ("status", BVal.str "processing"),
   ("created_at", BVal.dt now),
   ("total_customers", BVal.null),
   ("high_risk_customers", BVal.null),
   ("predictions", BVal.null),
   ("insights", BVal.null),
   ("recommendations", BVal.null)]

/-- Model of `upload_csv` (`server.py` lines 74-119).  `uuid` is the freshly generated
analysis id, `oid` the `_id` that `insert_one` adds to the inserted document,
`now` the current time.  Returns the HTTP result, the new store, and the list
of files written to the upload directory. -/
def upload_csv (s : Store) (filename uuid oid : String) (now : Nat) :
    UploadResult × Store × List String :=
  if pyEndsWith filename ".csv" = false then
    (UploadResult.badRequest "Only CSV files are allowed", s, [])
  else
    let record := uploadRecord uuid filename now ++ [("_id", BVal.str oid)]
    (UploadResult.ok uuid "File uploaded successfully. Analysis started." "processing",
      s ++ [record], [uploadFilePath uuid filename])

/-- Result of `GET /api/analysis/[id]`. -/
inductive GetResult where
  | notFound : GetResult
  | ok (d : Doc) : GetResult

/-- Model of `get_analysis_status` (`server.py` lines 238-251).  `if not analysis`
is Python-falsy: `None` or an empty dict. -/
def get_analysis_status (s : Store) (id : String) : GetResult :=
  match findOne s id with
  | none => GetResult.notFound
  | some analysis =>
    if analysis.isEmpty then GetResult.notFound
    else GetResult.ok (docDel analysis "_id")

/-- Descending-`created_at` order used by `GET /api/analyses`: documents this
program stores always carry a datetime `created_at`; any other shape is given
key 0. -/
def createdKey (d : Doc) : Nat :=
  match docGet d "created_at" with
  | some (BVal.dt t) => t
  | _ => 0

/-- Document `a` sorts no later than `b` in the newest-first listing. -/
def byCreatedDesc (a b : Doc) : Prop := createdKey b ≤ createdKey a

instance : DecidableRel byCreatedDesc := fun _ _ => Nat.decLe _ _

instance : IsTotal Doc byCreatedDesc :=
  ⟨fun a b => (Nat.le_total (createdKey b) (createdKey a)).elim Or.inl Or.inr⟩

instance : IsTrans Doc byCreatedDesc :=
  ⟨fun _ _ _ h1 h2 => Nat.le_trans h2 h1⟩

/-- Model of `get_all_analyses` (`server.py` lines 253-264):
`find().sort("created_at", -1).limit(20)`, then strip `_id` from each
document.  The store's sort is modelled by a stable sort on the collection. -/
def get_all_analyses (s : Store) : List Doc :=
  ((List.insertionSort byCreatedDesc s).take 20).map (fun d => docDel d "_id")

/-- Result of `DELETE /api/analysis/[id]`. -/
inductive DelResult where
  | notFound : DelResult
  | ok (message : String) : DelResult
  | internalError (detail : String) : DelResult

/-- Did the deletion succeed? -/
def DelResult.isOk : DelResult → Bool
  | DelResult.ok _ => true
  | _ => false

/-- Model of `delete_analysis` (`server.py` lines 266-286).  `fileExists` is the
outcome of `os.path.exists` on the stored path (consulted only when the
record has a `file_path` field), `removeOutcome` the outcome of `os.remove`
(`Except.error e` models a raised `OSError` with text `e`).  An exception
inside the `try` block aborts before `delete_one`, so the record survives. -/
def delete_analysis (s : Store) (id : String) (fileExists : Bool)
    (removeOutcome : Except String Unit) : DelResult × Store :=
  match findOne s id with
  | none => (DelResult.notFound, s)
  | some analysis =>
    if (docGet analysis "file_path").isSome && fileExists then
      match removeOutcome with
      | Except.error e =>
        (DelResult.internalError ("Failed to delete analysis: " ++ e), s)
      | Except.ok _ =>
        (DelResult.ok "Analysis deleted successfully", deleteOne s id)
    else (DelResult.ok "Analysis deleted successfully", deleteOne s id)

/-! ### The Background Analyzer (`analyze_churn_data`, lines 121-236) -/

/-- Outcomes of the analyzer's external interactions: the pandas CSV read
(row count, or the text of the exception it raised), the `GEMINI_API_KEY`
environment variable, the Gemini call (response text, or exception text),
and the current time used for `completed_at`. -/
structure AnalyzerEnv where
  csvRows : Except String Nat
  geminiKey : Option String
  aiResponse : Except String String
  now : Nat

/-- Python falsiness of `os.environ.get('GEMINI_API_KEY')`: absent, or the
empty string. -/
def keyMissing : Option String → Bool
  | none => true
  | some s => s == ""

/-- The `$set` document of the `failed` transition (lines 229-236). -/
def failUpd (e : String) (now : Nat) : List (String × BVal) :=
  [("status", BVal.str "failed"),
   ("error", BVal.str e),
   ("completed_at", BVal.dt now)]

/-- The `$set` document of the `completed_with_errors` transition
(lines 216-225). -/
def cweUpd (emsg response : String) (total : Nat) (now : Nat) :
    List (String × BVal) :=
  [("status", BVal.str "completed_with_errors"),
   ("error", BVal.str ("JSON parsing error: " ++ emsg)),
   ("raw_response", BVal.str response),
   ("total_customers", BVal.int total),
   ("completed_at", BVal.dt now)]

/-- Lookup in a parsed JSON object's field list (fields built by
`insertField` have unique keys, so this is Python dict lookup). -/
def jGet : List (String × Json) → String → Option Json
  | [], _ => none
  | (k', v) :: rest, k => if k' = k then some v else jGet rest k

/-- Python `analysis_result.get(k, default)` on a parsed JSON object. -/
def jGetD (fields : List (String × Json)) (k : String) (default : BVal) : BVal :=
  match jGet fields k with
  | some v => BVal.json v
  | none => default

/-- The `$set` document of the `completed` transition (lines 199-212). -/
def completedUpd (fields : List (String × Json)) (total : Nat) (now : Nat) :
    List (String × BVal) :=
  [("status", BVal.str "completed"),
   ("completed_at", BVal.dt now),
   ("total_customers", jGetD fields "total_customers" (BVal.int total)),
   ("high_risk_customers", jGetD fields "high_risk_customers" (BVal.int 0)),
   ("predictions", jGetD fields "predictions" (BVal.json (Json.arr []))),
   ("insights", jGetD fields "insights" (BVal.str "")),
   ("recommendations", jGetD fields "recommendations" (BVal.str ""))]

/-- Model of `analyze_churn_data` (lines 121-236) as the `$set` document it applies
to the job's record.  Every path of the Python function ends in exactly one
`update_one`: the outer `except` turns any uncaught exception (CSV read
failure, missing key, Gemini failure, `.get` on a non-dict response) into the
`failed` update, the inner `except json.JSONDecodeError` into the
`completed_with_errors` update.  Totality of this function is the model of
"the background task never escapes with an uncaught exception". -/
def analyze_churn_data (env : AnalyzerEnv) : List (String × BVal) :=
  match env.csvRows with
  | Except.error e => failUpd e env.now
  | Except.ok total =>
    if keyMissing env.geminiKey then
      failUpd "GEMINI_API_KEY not found in environment variables" env.now
    else
      match env.aiResponse with
      | Except.error e => failUpd e env.now
      | Except.ok response =>
        let response_text := extractResponseText response
        match json_loads response_text with
        | some (Json.obj fields) => completedUpd fields total env.now
        | some j => failUpd (attrErrMsg j) env.now
        | none =>
          cweUpd (jsonDecodeErrMsg response_text) response total env.now

/-- The analyzer's effect on the store: `update_one` with its `$set`. -/
def runAnalyzer (s : Store) (id : String) (env : AnalyzerEnv) : Store :=
  updateOne s id (analyze_churn_data env)

/-! ### Store and document lemmas -/

theorem docGet_docDel_ne (d : Doc) (k k' : String) (h : k' ≠ k) :
    docGet (docDel d k) k' = docGet d k' := by
  induction d with
  | nil => rfl
  | cons kv rest ih =>
    obtain ⟨k0, v⟩ := kv
    by_cases h0 : k0 = k
    · subst h0
      have hd : docDel ((k0, v) :: rest) k0 = rest := by simp [docDel]
      rw [hd]
      show docGet rest k' = docGet ((k0, v) :: rest) k'
      have hne : ¬k0 = k' := fun hh => h hh.symm
      have : docGet ((k0, v) :: rest) k' = docGet rest k' := by
        simp [docGet, hne]
      rw [this]
    · have hd : docDel ((k0, v) :: rest) k = (k0, v) :: docDel rest k := by
        simp [docDel, h0]
      rw [hd]
      by_cases h1 : k0 = k'
      · subst h1
        simp [docGet]
      · simp [docGet, h1, ih]

theorem findOne_matches {s : Store} {id : String} {d : Doc}
    (h : findOne s id = some d) : matchesId d id = true := by
  induction s with
  | nil => exact absurd h (by simp [findOne])
  | cons d0 rest ih =>
    by_cases h0 : matchesId d0 id
    · simp [findOne, h0] at h
      subst h
      exact h0
    · simp [findOne, h0] at h
      exact ih h

theorem matchesId_ne_nil {d : Doc} {id : String}
    (h : matchesId d id = true) : d ≠ [] := by
  intro hd
  subst hd
  simp [matchesId, docGet] at h

theorem countId_cons_true {d : Doc} {id : String} (s : Store)
    (h : matchesId d id = true) :
    countId (d :: s) id = countId s id + 1 := by
  simp [countId, List.filter_cons, h]

theorem countId_cons_false {d : Doc} {id : String} (s : Store)
    (h : matchesId d id = false) :
    countId (d :: s) id = countId s id := by
  simp [countId, List.filter_cons, h]

theorem countId_zero_findOne {s : Store} {id : String}
    (h : countId s id = 0) : findOne s id = none := by
  induction s with
  | nil => rfl
  | cons d rest ih =>
    by_cases h0 : matchesId d id
    · rw [countId_cons_true rest h0] at h
      omega
    · rw [countId_cons_false rest (by simpa using h0)] at h
      simp [findOne, h0]
      exact ih h

theorem findOne_deleteOne_of_unique {s : Store} {id : String} {d : Doc}
    (hf : findOne s id = some d) (hu : countId s id ≤ 1) :
    findOne (deleteOne s id) id = none := by
  induction s with
  | nil => exact absurd hf (by simp [findOne])
  | cons d0 rest ih =>
    by_cases h0 : matchesId d0 id
    · have hd : deleteOne (d0 :: rest) id = rest := by simp [deleteOne, h0]
      rw [hd]
      apply countId_zero_findOne
      rw [countId_cons_true rest h0] at hu
      omega
    · simp [findOne, h0] at hf
      rw [countId_cons_false rest (by simpa using h0)] at hu
      have hd : deleteOne (d0 :: rest) id = d0 :: deleteOne rest id := by
        simp [deleteOne, h0]
      rw [hd]
      simp [findOne, h0]
      exact ih hf hu

theorem findOne_append_of_none {s : Store} {id : String} (l : Store)
    (h : findOne s id = none) : findOne (s ++ l) id = findOne l id := by
  induction s with
  | nil => rfl
  | cons d rest ih =>
    by_cases h0 : matchesId d id
    · simp [findOne, h0] at h
    · simp [findOne, h0] at h
      simp [findOne, h0]
      exact ih h

/-! ### C5: non-`.csv` uploads are rejected with no side effects -/

/-- C5: for every upload whose declared filename does not end in `.csv`,
`Submit` fails with HTTP 400 (`InvalidInput`) and performs no side effects:
the store is unchanged and no file is written. -/
theorem C5_invalid_upload_rejected (s : Store) (fn uuid oid : String) (now : Nat)
    (h : pyEndsWith fn ".csv" = false) :
    upload_csv s fn uuid oid now
      = (UploadResult.badRequest "Only CSV files are allowed", s, []) := by
  simp [upload_csv, h]

/-- Witness for C5 at the filename `notes.txt` on a concrete store. -/
theorem C5_witness :
    pyEndsWith "notes.txt" ".csv" = false ∧
    upload_csv [] "notes.txt" "u1" "o1" 7
      = (UploadResult.badRequest "Only CSV files are allowed", [], []) :=
  ⟨by decide, C5_invalid_upload_rejected [] "notes.txt" "u1" "o1" 7 (by decide)⟩

/-! ### C6: every terminal transition carries `completed_at` -/

/-- C6: every transition the Background Analyzer makes out of `processing` —
to `completed`, `completed_with_errors`, or `failed` — sets `completed_at`
(to the transition time), so no record in a terminal state lacks it. -/
theorem C6_terminal_sets_completed_at (env : AnalyzerEnv) :
    docGet (analyze_churn_data env) "completed_at" = some (BVal.dt env.now) ∧
    ∃ st, docGet (analyze_churn_data env) "status" = some (BVal.str st) ∧
      (st = "completed" ∨ st = "completed_with_errors" ∨ st = "failed") := by
  obtain ⟨csv, key, ai, now⟩ := env
  cases csv with
  | error e =>
    exact ⟨by simp [analyze_churn_data, failUpd, docGet], "failed",
      by simp [analyze_churn_data, failUpd, docGet], Or.inr (Or.inr rfl)⟩
  | ok total =>
    by_cases hk : keyMissing key
    · exact ⟨by simp [analyze_churn_data, hk, failUpd, docGet], "failed",
        by simp [analyze_churn_data, hk, failUpd, docGet], Or.inr (Or.inr rfl)⟩
    · cases ai with
      | error e =>
        exact ⟨by simp [analyze_churn_data, hk, failUpd, docGet], "failed",
          by simp [analyze_churn_data, hk, failUpd, docGet], Or.inr (Or.inr rfl)⟩
      | ok response =>
        cases hj : json_loads (extractResponseText response) with
        | none =>
          exact ⟨by simp [analyze_churn_data, hk, hj, cweUpd, docGet],
            "completed_with_errors",
            by simp [analyze_churn_data, hk, hj, cweUpd, docGet],
            Or.inr (Or.inl rfl)⟩
        | some j =>
          cases j with
          | obj fields =>
            exact ⟨by simp [analyze_churn_data, hk, hj, completedUpd, docGet],
              "completed",
              by simp [analyze_churn_data, hk, hj, completedUpd, docGet],
              Or.inl rfl⟩
          | null =>
            exact ⟨by simp [analyze_churn_data, hk, hj, failUpd, docGet], "failed",
              by simp [analyze_churn_data, hk, hj, failUpd, docGet],
              Or.inr (Or.inr rfl)⟩
          | bool b =>
            exact ⟨by simp [analyze_churn_data, hk, hj, failUpd, docGet], "failed",
              by simp [analyze_churn_data, hk, hj, failUpd, docGet],
              Or.inr (Or.inr rfl)⟩
          | num raw =>
            exact ⟨by simp [analyze_churn_data, hk, hj, failUpd, docGet], "failed",
              by simp [analyze_churn_data, hk, hj, failUpd, docGet],
              Or.inr (Or.inr rfl)⟩
          | str sv =>
            exact ⟨by simp [analyze_churn_data, hk, hj, failUpd, docGet], "failed",
              by simp [analyze_churn_data, hk, hj, failUpd, docGet],
              Or.inr (Or.inr rfl)⟩
          | arr elems =>
            exact ⟨by simp [analyze_churn_data, hk, hj, failUpd, docGet], "failed",
              by simp [analyze_churn_data, hk, hj, failUpd, docGet],
              Or.inr (Or.inr rfl)⟩

/-! ### C3: a non-JSON response yields `completed_with_errors` -/

/-- C3: when the CSV read succeeds, the credential is present and the AI
response's fence-stripped text fails to parse as JSON, the Background
Analyzer transitions the record to `completed_with_errors`, with
`raw_response` equal to the exact response text received, a parse-error
message in `error`, and `total_customers` the row count computed from the
CSV. -/
theorem C3_non_json_response (total : Nat) (key : Option String)
    (resp : String) (now : Nat)
    (hk : keyMissing key = false)
    (hj : json_loads (extractResponseText resp) = none) :
    docGet (analyze_churn_data ⟨Except.ok total, key, Except.ok resp, now⟩)
        "status" = some (BVal.str "completed_with_errors") ∧
    docGet (analyze_churn_data ⟨Except.ok total, key, Except.ok resp, now⟩)
        "raw_response" = some (BVal.str resp) ∧
    docGet (analyze_churn_data ⟨Except.ok total, key, Except.ok resp, now⟩)
        "total_customers" = some (BVal.int total) ∧
    docGet (analyze_churn_data ⟨Except.ok total, key, Except.ok resp, now⟩)
        "error" = some (BVal.str ("JSON parsing error: "
            ++ jsonDecodeErrMsg (extractResponseText resp))) ∧
    docGet (analyze_churn_data ⟨Except.ok total, key, Except.ok resp, now⟩)
        "completed_at" = some (BVal.dt now) := by
  refine ⟨?_, ?_, ?_, ?_, ?_⟩ <;>
    simp [analyze_churn_data, hk, hj, cweUpd, docGet]

/-- Witness for C3: the response `hello` is not JSON. -/
theorem C3_witness :
    keyMissing (some "k") = false ∧
    json_loads (extractResponseText "hello") = none ∧
    docGet (analyze_churn_data
        ⟨Except.ok 5, some "k", Except.ok "hello", 11⟩) "raw_response"
      = some (BVal.str "hello") :=
  ⟨rfl, rfl, (C3_non_json_response 5 (some "k") "hello" 11 rfl rfl).2.1⟩

/-! ### C4: a JSON-object response yields `completed` with defaults -/

/-- C4: when the response's fence-stripped text parses as a JSON object, the
Background Analyzer transitions the record to `completed`, taking
`total_customers` from the response if present (else the computed row
count), `high_risk_customers` from the response (else 0), `predictions`
(else the empty sequence), `insights` and `recommendations` (else the empty
string), and sets `completed_at`. -/
theorem C4_json_object_response (total : Nat) (key : Option String)
    (resp : String) (now : Nat) (fields : List (String × Json))
    (hk : keyMissing key = false)
    (hj : json_loads (extractResponseText resp) = some (Json.obj fields)) :
    docGet (analyze_churn_data ⟨Except.ok total, key, Except.ok resp, now⟩)
        "status" = some (BVal.str "completed") ∧
    docGet (analyze_churn_data ⟨Except.ok total, key, Except.ok resp, now⟩)
        "total_customers" = some (jGetD fields "total_customers" (BVal.int total)) ∧
    docGet (analyze_churn_data ⟨Except.ok total, key, Except.ok resp, now⟩)
        "high_risk_customers" = some (jGetD fields "high_risk_customers" (BVal.int 0)) ∧
    docGet (analyze_churn_data ⟨Except.ok total, key, Except.ok resp, now⟩)
        "predictions" = some (jGetD fields "predictions" (BVal.json (Json.arr []))) ∧
    docGet (analyze_churn_data ⟨Except.ok total, key, Except.ok resp, now⟩)
        "insights" = some (jGetD fields "insights" (BVal.str "")) ∧
    docGet (analyze_churn_data ⟨Except.ok total, key, Except.ok resp, now⟩)
        "recommendations" = some (jGetD fields "recommendations" (BVal.str "")) ∧
    docGet (analyze_churn_data ⟨Except.ok total, key, Except.ok resp, now⟩)
        "completed_at" = some (BVal.dt now) := by
  refine ⟨?_, ?_, ?_, ?_, ?_, ?_, ?_⟩ <;>
    simp [analyze_churn_data, hk, hj, completedUpd, docGet]

/-- Witness for C4: a response carrying only `high_risk_customers`. -/
theorem C4_witness :
    keyMissing (some "k") = false ∧
    json_loads (extractResponseText "\x7b\"high_risk_customers\": 3\x7d")
      = some (Json.obj [("high_risk_customers", Json.num "3")]) ∧
    docGet (analyze_churn_data ⟨Except.ok 5, some "k",
        Except.ok "\x7b\"high_risk_customers\": 3\x7d", 11⟩) "total_customers"
      = some (jGetD [("high_risk_customers", Json.num "3")]
          "total_customers" (BVal.int 5)) :=
  ⟨rfl, rfl, (C4_json_object_response 5 (some "k")
      "\x7b\"high_risk_customers\": 3\x7d" 11
      [("high_risk_customers", Json.num "3")] rfl rfl).2.1⟩

/-! ### C9: missing credentials fail the job, not the process -/

/-- C9: when `GEMINI_API_KEY` is absent (or empty), the Background Analyzer
transitions the job to `failed` with the exception text in `error` and sets
`completed_at`; the analyzer's model is a total function (its every path ends
in one `update_one`), which is the embedding of "the missing credential never
escapes the background task"; and `Submit` on a `.csv` filename still returns
success regardless of the credential. -/
theorem C9_missing_key_fails_job (env : AnalyzerEnv) (s : Store)
    (fn uuid oid : String) (now : Nat)
    (hk : keyMissing env.geminiKey = true)
    (hf : pyEndsWith fn ".csv" = true) :
    docGet (analyze_churn_data env) "status" = some (BVal.str "failed") ∧
    (∃ e, docGet (analyze_churn_data env) "error" = some (BVal.str e)) ∧
    docGet (analyze_churn_data env) "completed_at" = some (BVal.dt env.now) ∧
    (upload_csv s fn uuid oid now).1
      = UploadResult.ok uuid "File uploaded successfully. Analysis started."
          "processing" := by
  obtain ⟨csv, key, ai, tnow⟩ := env
  simp only at hk
  refine ⟨?_, ?_, ?_, ?_⟩
  · cases csv with
    | error e => simp [analyze_churn_data, failUpd, docGet]
    | ok total => simp [analyze_churn_data, hk, failUpd, docGet]
  · cases csv with
    | error e => exact ⟨e, by simp [analyze_churn_data, failUpd, docGet]⟩
    | ok total =>
      exact ⟨"GEMINI_API_KEY not found in environment variables",
        by simp [analyze_churn_data, hk, failUpd, docGet]⟩
  · cases csv with
    | error e => simp [analyze_churn_data, failUpd, docGet]
    | ok total => simp [analyze_churn_data, hk, failUpd, docGet]
  · simp [upload_csv, hf]

/-- Witness for C9: empty environment, a 5-row CSV, a `.csv` filename. -/
theorem C9_witness :
    keyMissing (none : Option String) = true ∧
    pyEndsWith "test_customers.csv" ".csv" = true ∧
    docGet (analyze_churn_data ⟨Except.ok 5, none, Except.ok "x", 3⟩) "status"
      = some (BVal.str "failed") :=
  ⟨rfl, by decide,
    (C9_missing_key_fails_job ⟨Except.ok 5, none, Except.ok "x", 3⟩ []
      "test_customers.csv" "u1" "o1" 3 rfl (by decide)).1⟩

/-! ### C7: `GetStatus` is 404 exactly on absent ids -/

/-- C7: `GetStatus` fails with `NotFound` exactly when no record with the id
exists in the store (never created, or already deleted — the lookup only
consults the current store), and otherwise returns the currently stored
record with the internal `_id` field stripped. -/
theorem C7_get_status_not_found_iff (s : Store) (id : String) :
    (get_analysis_status s id = GetResult.notFound ↔ findOne s id = none) ∧
    (∀ d, findOne s id = some d →
      get_analysis_status s id = GetResult.ok (docDel d "_id")) := by
  constructor
  · constructor
    · intro h
      cases hf : findOne s id with
      | none => rfl
      | some d =>
        have hm := findOne_matches hf
        have hne := matchesId_ne_nil hm
        have : get_analysis_status s id = GetResult.ok (docDel d "_id") := by
          simp [get_analysis_status, hf, List.isEmpty_iff, hne]
        rw [this] at h
        exact absurd h (by simp)
    · intro h
      simp [get_analysis_status, h]
  · intro d hf
    have hne := matchesId_ne_nil (findOne_matches hf)
    simp [get_analysis_status, hf, List.isEmpty_iff, hne]

/-- Witness for C7: a one-record store, looked up by its id and by a fresh
id. -/
theorem C7_witness :
    get_analysis_status [[("analysis_id", BVal.str "a1"), ("_id", BVal.str "o1")]]
        "a1" = GetResult.ok [("analysis_id", BVal.str "a1")] ∧
    (get_analysis_status [[("analysis_id", BVal.str "a1"), ("_id", BVal.str "o1")]]
        "zz" = GetResult.notFound ↔
      findOne [[("analysis_id", BVal.str "a1"), ("_id", BVal.str "o1")]] "zz"
        = none) :=
  ⟨(C7_get_status_not_found_iff
      [[("analysis_id", BVal.str "a1"), ("_id", BVal.str "o1")]] "a1").2
      [("analysis_id", BVal.str "a1"), ("_id", BVal.str "o1")] rfl,
   (C7_get_status_not_found_iff
      [[("analysis_id", BVal.str "a1"), ("_id", BVal.str "o1")]] "zz").1⟩

/-! ### C1 (corrected): file-removal failure does prevent record deletion -/

/-- A one-record store whose record carries a `file_path`. -/
def c1Store : Store :=
  [[("analysis_id", BVal.str "a1"),
    ("file_path", BVal.str "/app/uploads/a1_data.csv"),
    ("_id", BVal.str "o1")]]

/-- C1 counterexample: with the record present, the file on disk present,
and `os.remove` raising (modelled `Except.error "Permission denied"`),
`Delete` returns `InternalError` and the Job Record is *not* removed — the
`try` block aborts before `delete_one`.  This refutes the claim that any
failure of the file-removal step still lets the record be deleted. -/
theorem C1_counterexample :
    (findOne c1Store "a1").isSome = true ∧
    (delete_analysis c1Store "a1" true (Except.error "Permission denied")).1
      = DelResult.internalError "Failed to delete analysis: Permission denied" ∧
    (delete_analysis c1Store "a1" true (Except.error "Permission denied")).1.isOk
      = false ∧
    (delete_analysis c1Store "a1" true (Except.error "Permission denied")).2
      = c1Store ∧
    (findOne (delete_analysis c1Store "a1" true
        (Except.error "Permission denied")).2 "a1").isSome = true :=
  ⟨rfl, rfl, rfl, rfl, rfl⟩

/-- C1 (amended): for every `Delete` call on an existing record, the
file-*missing* case (and the successful-removal case) does not prevent
removal of the Job Record — the record is deleted and the operation
succeeds; but a failure while removing an existing file surfaces as
`InternalError` (HTTP 500) and leaves the record in the store. -/
theorem C1_amended_delete_behaviour (s : Store) (id : String) (fe : Bool)
    (ro : Except String Unit) (d : Doc) (hf : findOne s id = some d) :
    ((fe = false ∨ ro = Except.ok ()) →
      (delete_analysis s id fe ro).1 = DelResult.ok "Analysis deleted successfully" ∧
      (delete_analysis s id fe ro).2 = deleteOne s id ∧
      (countId s id ≤ 1 → findOne ((delete_analysis s id fe ro).2) id = none)) ∧
    (∀ e, fe = true → ro = Except.error e → (docGet d "file_path").isSome = true →
      (delete_analysis s id fe ro).1
        = DelResult.internalError ("Failed to delete analysis: " ++ e) ∧
      (delete_analysis s id fe ro).2 = s) := by
  constructor
  · intro hok
    have hdel : (delete_analysis s id fe ro).1
          = DelResult.ok "Analysis deleted successfully" ∧
        (delete_analysis s id fe ro).2 = deleteOne s id := by
      cases hok with
      | inl hfe =>
        subst hfe
        simp [delete_analysis, hf]
      | inr hro =>
        subst hro
        by_cases hc : (docGet d "file_path").isSome && fe
        · simp [delete_analysis, hf, hc]
        · simp [delete_analysis, hf, hc]
    refine ⟨hdel.1, hdel.2, ?_⟩
    intro hu
    rw [hdel.2]
    exact findOne_deleteOne_of_unique hf hu
  · intro e hfe hro hfp
    subst hfe
    subst hro
    simp [delete_analysis, hf, hfp]

/-- Witness for C1 (amended): both halves at concrete inputs — the
file-missing case deletes the record; the raising `os.remove` case returns
the 500 and keeps the store. -/
theorem C1_amended_witness :
    ((delete_analysis c1Store "a1" false (Except.ok ())).1
        = DelResult.ok "Analysis deleted successfully" ∧
      findOne ((delete_analysis c1Store "a1" false (Except.ok ())).2) "a1"
        = none) ∧
    (delete_analysis c1Store "a1" true (Except.error "disk error")).2
      = c1Store := by
  have h1 := C1_amended_delete_behaviour c1Store "a1" false (Except.ok ())
    [("analysis_id", BVal.str "a1"),
     ("file_path", BVal.str "/app/uploads/a1_data.csv"),
     ("_id", BVal.str "o1")] rfl
  have h2 := C1_amended_delete_behaviour c1Store "a1" true
    (Except.error "disk error")
    [("analysis_id", BVal.str "a1"),
     ("file_path", BVal.str "/app/uploads/a1_data.csv"),
     ("_id", BVal.str "o1")] rfl
  have ha := h1.1 (Or.inl rfl)
  refine ⟨⟨ha.1, ha.2.2 (by decide)⟩, (h2.2 "disk error" rfl rfl rfl).2⟩

/-! ### C8: `ListRecent` is bounded, newest first, empty-safe -/

theorem createdKey_docDel (d : Doc) :
    createdKey (docDel d "_id") = createdKey d := by
  unfold createdKey
  rw [docGet_docDel_ne d "_id" "created_at" (by decide)]

/-- C8: for every state of the store, `ListRecent` returns at most 20
records, sorted by `created_at` descending (newest first), and returns the
empty sequence — not an error — on the empty store. -/
theorem C8_list_recent_bounded_sorted (s : Store) :
    (get_all_analyses s).length ≤ 20 ∧
    List.Sorted byCreatedDesc (get_all_analyses s) ∧
    get_all_analyses ([] : Store) = [] := by
  refine ⟨?_, ?_, rfl⟩
  · simp only [get_all_analyses, List.length_map]
    exact List.length_take_le 20 _
  · have hs : List.Sorted byCreatedDesc (List.insertionSort byCreatedDesc s) :=
      List.sorted_insertionSort byCreatedDesc s
    have ht : List.Sorted byCreatedDesc
        ((List.insertionSort byCreatedDesc s).take 20) :=
      List.Pairwise.sublist (List.take_sublist 20 _) hs
    exact ht.map _ (fun a b h => by
      show byCreatedDesc (docDel a "_id") (docDel b "_id")
      unfold byCreatedDesc
      rw [createdKey_docDel, createdKey_docDel]
      exact h)

/-! ### C10: the internal `file_path` is exposed by reads -/

/-- C10: the record created by `Submit` stores the server-side `file_path`;
`GetStatus` and `ListRecent` strip only the store's `_id` field before
returning, so `file_path` (like every other stored field) is exposed at the
public interface. -/
theorem C10_file_path_exposed (s : Store) (fn uuid oid : String) (now : Nat)
    (hcsv : pyEndsWith fn ".csv" = true)
    (hfresh : findOne s uuid = none) :
    (∃ d, findOne (upload_csv s fn uuid oid now).2.1 uuid = some d ∧
      docGet d "file_path" = some (BVal.str (uploadFilePath uuid fn)) ∧
      get_analysis_status (upload_csv s fn uuid oid now).2.1 uuid
        = GetResult.ok (docDel d "_id") ∧
      docGet (docDel d "_id") "file_path"
        = some (BVal.str (uploadFilePath uuid fn))) ∧
    (∀ (t : Store) (r : Doc), r ∈ get_all_analyses t →
      ∃ d, d ∈ t ∧ r = docDel d "_id" ∧
        docGet r "file_path" = docGet d "file_path") ∧
    (∀ (d : Doc) (k : String), k ≠ "_id" →
      docGet (docDel d "_id") k = docGet d k) := by
  have hstore : (upload_csv s fn uuid oid now).2.1
      = s ++ [uploadRecord uuid fn now ++ [("_id", BVal.str oid)]] := by
    simp [upload_csv, hcsv]
  refine ⟨?_, ?_, fun d k h => docGet_docDel_ne d "_id" k h⟩
  · refine ⟨uploadRecord uuid fn now ++ [("_id", BVal.str oid)], ?_, ?_, ?_, ?_⟩
    · rw [hstore, findOne_append_of_none _ hfresh]
      simp [findOne, matchesId, uploadRecord, docGet]
    · simp [uploadRecord, docGet]
    · rw [hstore]
      have hfind : findOne
          (s ++ [uploadRecord uuid fn now ++ [("_id", BVal.str oid)]]) uuid
          = some (uploadRecord uuid fn now ++ [("_id", BVal.str oid)]) := by
        rw [findOne_append_of_none _ hfresh]
        simp [findOne, matchesId, uploadRecord, docGet]
      simp only [get_analysis_status]
      rw [hfind]
      simp [uploadRecord]
    · rw [docGet_docDel_ne _ "_id" "file_path" (by decide)]
      simp [uploadRecord, docGet]
  · intro t r hr
    simp only [get_all_analyses] at hr
    obtain ⟨d, hdmem, hfd⟩ := List.mem_map.mp hr
    refine ⟨d, ?_, hfd.symm, ?_⟩
    · exact (List.mem_insertionSort byCreatedDesc).mp
        (List.take_subset 20 _ hdmem)
    · rw [← hfd]
      exact docGet_docDel_ne d "_id" "file_path" (by decide)

/-- Witness for C10: a fresh upload of `data.csv` into the empty store, plus
the field-preservation conjunct applied at a concrete document. -/
theorem C10_witness :
    findOne (upload_csv [] "data.csv" "u1" "o1" 3).2.1 "u1"
      = some (uploadRecord "u1" "data.csv" 3 ++ [("_id", BVal.str "o1")]) ∧
    docGet (docDel [("file_path", BVal.str "p"), ("_id", BVal.str "o")] "_id")
        "file_path"
      = docGet [("file_path", BVal.str "p"), ("_id", BVal.str "o")] "file_path" :=
  ⟨rfl,
   (C10_file_path_exposed [] "data.csv" "u1" "o1" 3 (by decide) rfl).2.2
     [("file_path", BVal.str "p"), ("_id", BVal.str "o")] "file_path" (by decide)⟩

/-! ### C2: lemmas on `replace`, `strip` and the fence stripping -/

/-- The marker `<fence>json` as a character list. -/
def fenceJsonD : List Char := fenceD ++ ['j', 's', 'o', 'n']

theorem containsSeq_cons (pat : List Char) (c : Char) (r : List Char) :
    containsSeq pat (c :: r) = (pat.isPrefixOf (c :: r) || containsSeq pat r) := rfl

theorem raux_nil (pat repl : List Char) (f : Nat) :
    replaceAux pat repl f [] = [] := by
  cases f <;> rfl

theorem raux_fuel (pat repl : List Char) :
    ∀ (f₁ : Nat) (xs : List Char) (f₂ : Nat), xs.length ≤ f₁ → xs.length ≤ f₂ →
      replaceAux pat repl f₁ xs = replaceAux pat repl f₂ xs := by
  intro f₁
  induction f₁ with
  | zero =>
    intro xs f₂ h1 _
    have hx : xs = [] := List.length_eq_zero.mp (Nat.le_zero.mp h1)
    subst hx
    rw [raux_nil, raux_nil]
  | succ g ih =>
    intro xs f₂ h1 h2
    cases xs with
    | nil => rw [raux_nil, raux_nil]
    | cons c r =>
      cases f₂ with
      | zero => simp only [List.length_cons] at h2; omega
      | succ g2 =>
        simp only [List.length_cons] at h1 h2
        have hd := List.length_drop (pat.length - 1) r
        simp only [replaceAux]
        by_cases hc : (pat.isPrefixOf (c :: r) && !pat.isEmpty) = true
        · rw [if_pos hc, if_pos hc]
          congr 1
          exact ih _ _ (by omega) (by omega)
        · rw [if_neg hc, if_neg hc]
          congr 1
          exact ih _ _ (by omega) (by omega)

theorem pfx_append_both (a b c : List Char) :
    (a ++ b).isPrefixOf (a ++ c) = b.isPrefixOf c := by
  induction a with
  | nil => rfl
  | cons x a' ih => simp [List.isPrefixOf, ih]

theorem pfx_self_append (a b : List Char) : a.isPrefixOf (a ++ b) = true := by
  have h := pfx_append_both a [] b
  rw [List.append_nil] at h
  rw [h]
  exact List.isPrefixOf_nil_left

theorem pfx_of_append_pfx : ∀ (a b ys : List Char),
    (a ++ b).isPrefixOf ys = true → a.isPrefixOf ys = true := by
  intro a
  induction a with
  | nil => intro b ys _; exact List.isPrefixOf_nil_left
  | cons x a' ih =>
    intro b ys h
    cases ys with
    | nil => simp [List.isPrefixOf] at h
    | cons y ys' =>
      simp only [List.cons_append, List.isPrefixOf, Bool.and_eq_true] at h
      simp only [List.isPrefixOf, Bool.and_eq_true]
      exact ⟨h.1, ih b ys' h.2⟩

theorem pfx3 (a b c : Char) (rest : List Char) :
    fenceD.isPrefixOf (a :: b :: c :: rest)
      = ((btick == a) && ((btick == b) && (btick == c))) := by
  simp [fenceD, List.isPrefixOf]

theorem pfx_fence_nl (zs : List Char) : fenceD.isPrefixOf ('\n' :: zs) = false := by
  have hb : (btick == '\n') = false := by decide
  simp [fenceD, List.isPrefixOf, hb]

theorem pfx_fence_append_nl : ∀ (xs : List Char),
    fenceD.isPrefixOf xs = false → fenceD.isPrefixOf (xs ++ ['\n']) = false := by
  have hb : (btick == '\n') = false := by decide
  intro xs h
  match xs with
  | [] => decide
  | [a] => simp [fenceD, List.isPrefixOf, hb]
  | [a, b] => simp [fenceD, List.isPrefixOf, hb]
  | a :: b :: c :: xs' =>
    rw [pfx3] at h
    rw [show (a :: b :: c :: xs') ++ ['\n'] = a :: b :: c :: (xs' ++ ['\n']) from rfl,
      pfx3]
    exact h

theorem noFence_append_nl : ∀ (xs : List Char),
    containsSeq fenceD xs = false → containsSeq fenceD (xs ++ ['\n']) = false := by
  intro xs
  induction xs with
  | nil => intro _; decide
  | cons c r ih =>
    intro h
    rw [containsSeq_cons] at h
    have h1 : fenceD.isPrefixOf (c :: r) = false := by
      cases hx : fenceD.isPrefixOf (c :: r) with
      | false => rfl
      | true => rw [hx] at h; simp at h
    have h2 : containsSeq fenceD r = false := by
      rw [h1] at h; simpa using h
    have hp : fenceD.isPrefixOf (c :: (r ++ ['\n'])) = false :=
      pfx_fence_append_nl (c :: r) h1
    rw [show (c :: r) ++ ['\n'] = c :: (r ++ ['\n']) from rfl, containsSeq_cons, hp]
    simp only [Bool.false_or]
    exact ih h2

theorem pfx_fence_mid : ∀ (xs zs : List Char),
    containsSeq fenceD (xs ++ ['\n']) = false →
    fenceD.isPrefixOf (xs ++ '\n' :: zs) = false := by
  have hb : (btick == '\n') = false := by decide
  intro xs zs h
  match xs with
  | [] => exact pfx_fence_nl zs
  | [a] => simp [fenceD, List.isPrefixOf, hb]
  | [a, b] => simp [fenceD, List.isPrefixOf, hb]
  | a :: b :: c :: xs' =>
    rw [show (a :: b :: c :: xs') ++ ['\n'] = a :: b :: c :: (xs' ++ ['\n']) from rfl,
      containsSeq_cons] at h
    have h1 : fenceD.isPrefixOf (a :: b :: c :: (xs' ++ ['\n'])) = false := by
      cases hx : fenceD.isPrefixOf (a :: b :: c :: (xs' ++ ['\n'])) with
      | false => rfl
      | true => rw [hx] at h; simp at h
    rw [pfx3] at h1
    rw [show (a :: b :: c :: xs') ++ '\n' :: zs
        = a :: b :: c :: (xs' ++ '\n' :: zs) from rfl, pfx3]
    exact h1

theorem raux_noOcc (pat repl : List Char) :
    ∀ (xs : List Char) (f : Nat), containsSeq pat xs = false → xs.length ≤ f →
      replaceAux pat repl f xs = xs := by
  intro xs
  induction xs with
  | nil => intro f _ _; exact raux_nil pat repl f
  | cons c r ih =>
    intro f h hf
    rw [containsSeq_cons] at h
    have h1 : pat.isPrefixOf (c :: r) = false := by
      cases hx : pat.isPrefixOf (c :: r) with
      | false => rfl
      | true => rw [hx] at h; simp at h
    have h2 : containsSeq pat r = false := by
      rw [h1] at h; simpa using h
    cases f with
    | zero => simp only [List.length_cons] at hf; omega
    | succ g =>
      simp only [replaceAux]
      rw [if_neg (by simp [h1])]
      rw [ih g h2 (by simp only [List.length_cons] at hf; omega)]

theorem raux_consume (p : Char) (pt : List Char) (f : Nat) (ys : List Char)
    (hf : ys.length ≤ f) :
    replaceAux (p :: pt) [] ((p :: pt).length + f) ((p :: pt) ++ ys)
      = replaceAux (p :: pt) [] f ys := by
  have hlen : (p :: pt).length + f = (pt.length + f) + 1 := by
    simp only [List.length_cons]; omega
  rw [hlen]
  show replaceAux (p :: pt) [] ((pt.length + f) + 1) (p :: (pt ++ ys)) = _
  simp only [replaceAux]
  rw [if_pos ?hc]
  case hc =>
    have hpre : (p :: pt).isPrefixOf (p :: (pt ++ ys)) = true :=
      pfx_self_append (p :: pt) ys
    simp [hpre]
  have hdrop : (pt ++ ys).drop ((p :: pt).length - 1) = ys := by
    have h1 : (p :: pt).length - 1 = pt.length := by
      simp only [List.length_cons]; omega
    rw [h1]
    exact List.drop_left pt ys
  rw [List.nil_append, hdrop]
  exact raux_fuel (p :: pt) [] (pt.length + f) ys f (by omega) hf

theorem raux_consume_fence (f : Nat) (ys : List Char) (hf : ys.length ≤ f) :
    replaceAux fenceD [] (fenceD.length + f) (fenceD ++ ys)
      = replaceAux fenceD [] f ys :=
  raux_consume btick [btick, btick] f ys hf

theorem raux_consume_fenceJson (f : Nat) (ys : List Char) (hf : ys.length ≤ f) :
    replaceAux fenceJsonD [] (fenceJsonD.length + f) (fenceJsonD ++ ys)
      = replaceAux fenceJsonD [] f ys :=
  raux_consume btick [btick, btick, 'j', 's', 'o', 'n'] f ys hf

theorem noFenceJson : ∀ (xs : List Char),
    containsSeq fenceD (xs ++ ['\n']) = false →
    containsSeq fenceJsonD (xs ++ '\n' :: fenceD) = false := by
  intro xs
  induction xs with
  | nil => intro _; decide
  | cons c xs' ih =>
    intro h
    have htail : containsSeq fenceD (xs' ++ ['\n']) = false := by
      rw [show (c :: xs') ++ ['\n'] = c :: (xs' ++ ['\n']) from rfl,
        containsSeq_cons] at h
      cases hx : containsSeq fenceD (xs' ++ ['\n']) with
      | false => rfl
      | true => rw [hx] at h; simp at h
    have h1 : fenceJsonD.isPrefixOf (c :: (xs' ++ '\n' :: fenceD)) = false := by
      cases hx : fenceJsonD.isPrefixOf (c :: (xs' ++ '\n' :: fenceD)) with
      | false => rfl
      | true =>
        have h2 : fenceD.isPrefixOf (c :: (xs' ++ '\n' :: fenceD)) = true :=
          pfx_of_append_pfx fenceD ['j', 's', 'o', 'n'] _ hx
        have h3 : fenceD.isPrefixOf (c :: (xs' ++ '\n' :: fenceD)) = false :=
          pfx_fence_mid (c :: xs') fenceD h
        rw [h2] at h3
        exact absurd h3 (by simp)
    rw [show (c :: xs') ++ '\n' :: fenceD = c :: (xs' ++ '\n' :: fenceD) from rfl,
      containsSeq_cons, h1]
    simp only [Bool.false_or]
    exact ih htail

theorem raux_trailing : ∀ (xs : List Char) (f : Nat),
    containsSeq fenceD (xs ++ ['\n']) = false → xs.length + 4 ≤ f →
    replaceAux fenceD [] f (xs ++ '\n' :: fenceD) = xs ++ ['\n'] := by
  intro xs
  induction xs with
  | nil =>
    intro f h hf
    have hlen1 : ([] ++ '\n' :: fenceD : List Char).length ≤ f := by
      simp [fenceD]; omega
    have hlen2 : ([] ++ '\n' :: fenceD : List Char).length ≤ 4 := by decide
    rw [raux_fuel fenceD [] f ([] ++ '\n' :: fenceD) 4 hlen1 hlen2]
    decide
  | cons c xs' ih =>
    intro f h hf
    cases f with
    | zero => simp only [List.length_cons] at hf; omega
    | succ g =>
      have htail : containsSeq fenceD (xs' ++ ['\n']) = false := by
        rw [show (c :: xs') ++ ['\n'] = c :: (xs' ++ ['\n']) from rfl,
          containsSeq_cons] at h
        cases hx : containsSeq fenceD (xs' ++ ['\n']) with
        | false => rfl
        | true => rw [hx] at h; simp at h
      have hp : fenceD.isPrefixOf (c :: (xs' ++ '\n' :: fenceD)) = false :=
        pfx_fence_mid (c :: xs') fenceD h
      rw [show (c :: xs') ++ '\n' :: fenceD = c :: (xs' ++ '\n' :: fenceD) from rfl]
      simp only [replaceAux]
      rw [if_neg (by simp [hp])]
      rw [ih g htail (by simp only [List.length_cons] at hf; omega)]
      rfl

/-! ### Strip lemmas -/

theorem lstripD_keep {c : Char} (xs : List Char) (h : pyWs c = false) :
    lstripD (c :: xs) = c :: xs := by
  simp [lstripD, h]

theorem rstripD_append_keep {z : Char} (xs : List Char) (h : pyWs z = false) :
    rstripD (xs ++ [z]) = xs ++ [z] := by
  unfold rstripD
  rw [List.reverse_append]
  simp [lstripD, h]

theorem stripD_cons_ws {c : Char} (xs : List Char) (h : pyWs c = true) :
    stripD (c :: xs) = stripD xs := by
  simp [stripD, lstripD, h]

theorem rstripD_append_nl (xs : List Char) :
    rstripD (xs ++ ['\n']) = rstripD xs := by
  have hn : pyWs '\n' = true := by decide
  unfold rstripD
  rw [List.reverse_append]
  simp [lstripD, hn]

theorem stripD_append_nl : ∀ (xs : List Char), stripD (xs ++ ['\n']) = stripD xs := by
  intro xs
  induction xs with
  | nil => decide
  | cons c xs' ih =>
    by_cases hc : pyWs c = true
    · rw [show (c :: xs') ++ ['\n'] = c :: (xs' ++ ['\n']) from rfl,
        stripD_cons_ws _ hc, ih, stripD_cons_ws _ hc]
    · have hcb : pyWs c = false := by simpa using hc
      show rstripD (lstripD ((c :: xs') ++ ['\n'])) = rstripD (lstripD (c :: xs'))
      rw [show (c :: xs') ++ ['\n'] = c :: (xs' ++ ['\n']) from rfl]
      rw [lstripD_keep _ hcb, lstripD_keep _ hcb]
      rw [show c :: (xs' ++ ['\n']) = (c :: xs') ++ ['\n'] from rfl]
      exact rstripD_append_nl (c :: xs')

theorem stripD_cons_nl (xs : List Char) : stripD ('\n' :: xs) = stripD xs :=
  stripD_cons_ws xs (by decide)

theorem stripD_ends {a z : Char} (xs : List Char) (ha : pyWs a = false)
    (hz : pyWs z = false) : stripD (a :: (xs ++ [z])) = a :: (xs ++ [z]) := by
  show rstripD (lstripD (a :: (xs ++ [z]))) = _
  rw [lstripD_keep _ ha]
  rw [show a :: (xs ++ [z]) = (a :: xs) ++ [z] from rfl]
  exact rstripD_append_keep (a :: xs) hz

theorem stripD_wrap (mid : List Char) :
    stripD (fenceD ++ (mid ++ '\n' :: fenceD)) = fenceD ++ (mid ++ '\n' :: fenceD) := by
  have hshape : fenceD ++ (mid ++ '\n' :: fenceD)
      = btick :: (([btick, btick] ++ mid ++ ['\n', btick, btick]) ++ [btick]) := by
    simp [fenceD]
  rw [hshape]
  have hb : pyWs btick = false := by decide
  exact stripD_ends _ hb hb

/-! ### The two fence-stripping branch computations -/

theorem hnl_of (t : List Char) (hnf : containsSeq fenceD t = false) :
    containsSeq fenceD (('\n' :: t) ++ ['\n']) = false := by
  rw [show ('\n' :: t) ++ ['\n'] = '\n' :: (t ++ ['\n']) from rfl, containsSeq_cons,
    pfx_fence_nl]
  simp only [Bool.false_or]
  exact noFence_append_nl t hnf

theorem raux_trailing_self (t : List Char) (hnf : containsSeq fenceD t = false) :
    replaceAux fenceD [] (('\n' :: t) ++ '\n' :: fenceD).length
        (('\n' :: t) ++ '\n' :: fenceD)
      = ('\n' :: t) ++ ['\n'] := by
  apply raux_trailing ('\n' :: t) _ (hnl_of t hnf)
  simp [fenceD]

theorem raux_fence_full (t : List Char) (hnf : containsSeq fenceD t = false) :
    replaceAux fenceD [] (fenceD ++ (('\n' :: t) ++ '\n' :: fenceD)).length
        (fenceD ++ (('\n' :: t) ++ '\n' :: fenceD))
      = ('\n' :: t) ++ ['\n'] := by
  rw [List.length_append]
  rw [raux_consume_fence _ _ (Nat.le_refl _)]
  have hf : (('\n' :: t) ++ '\n' :: fenceD).length = ('\n' :: t).length + 4 := by
    simp [fenceD]
  rw [hf]
  exact raux_trailing ('\n' :: t) _ (hnl_of t hnf) (Nat.le_refl _)

theorem raux_fenceJson_full (t : List Char) (hnf : containsSeq fenceD t = false) :
    replaceAux fenceJsonD [] (fenceJsonD ++ (('\n' :: t) ++ '\n' :: fenceD)).length
        (fenceJsonD ++ (('\n' :: t) ++ '\n' :: fenceD))
      = ('\n' :: t) ++ '\n' :: fenceD := by
  rw [List.length_append]
  rw [raux_consume_fenceJson _ _ (Nat.le_refl _)]
  exact raux_noOcc fenceJsonD [] _ _ (noFenceJson ('\n' :: t) (hnl_of t hnf))
    (Nat.le_refl _)

theorem strip_tail_nl (t : List Char) :
    stripD (('\n' :: t) ++ ['\n']) = stripD t := by
  rw [show ('\n' :: t) ++ ['\n'] = '\n' :: (t ++ ['\n']) from rfl, stripD_cons_nl,
    stripD_append_nl]

theorem extract_wrap_bare (t : String) (hnf : containsSeq fenceD t.data = false) :
    extractResponseText (wrapFence "" t) = pyStrip t := by
  have hstrip : pyStrip (wrapFence "" t) = wrapFence "" t :=
    congrArg String.mk (stripD_wrap ('\n' :: t.data))
  have hsj : pyStartsWith (wrapFence "" t) fenceJsonS = false := by
    show List.isPrefixOf (fenceD ++ ['j', 's', 'o', 'n'])
      (fenceD ++ ('\n' :: (t.data ++ '\n' :: fenceD))) = false
    rw [pfx_append_both]
    have hj : ('j' == '\n') = false := by decide
    simp [List.isPrefixOf, hj]
  have hsf : pyStartsWith (wrapFence "" t) fenceS = true :=
    pfx_self_append fenceD ('\n' :: (t.data ++ '\n' :: fenceD))
  have hrep : pyReplace (wrapFence "" t) fenceS ""
      = ⟨('\n' :: t.data) ++ ['\n']⟩ :=
    congrArg String.mk (raux_fence_full t.data hnf)
  simp only [extractResponseText, hstrip, hsj, hsf, Bool.false_eq_true,
    if_false, if_true]
  rw [hrep]
  exact congrArg String.mk (strip_tail_nl t.data)

theorem extract_wrap_json (t : String) (hnf : containsSeq fenceD t.data = false) :
    extractResponseText (wrapFence "json" t) = pyStrip t := by
  have hstrip : pyStrip (wrapFence "json" t) = wrapFence "json" t :=
    congrArg String.mk (stripD_wrap ("json".data ++ ('\n' :: t.data)))
  have hsj : pyStartsWith (wrapFence "json" t) fenceJsonS = true :=
    pfx_self_append fenceJsonD (('\n' :: t.data) ++ '\n' :: fenceD)
  have hrep1 : pyReplace (wrapFence "json" t) fenceJsonS ""
      = ⟨('\n' :: t.data) ++ '\n' :: fenceD⟩ :=
    congrArg String.mk (raux_fenceJson_full t.data hnf)
  have hrep2 : pyReplace (⟨('\n' :: t.data) ++ '\n' :: fenceD⟩ : String) fenceS ""
      = ⟨('\n' :: t.data) ++ ['\n']⟩ :=
    congrArg String.mk (raux_trailing_self t.data hnf)
  simp only [extractResponseText, hstrip, hsj, if_true]
  rw [hrep1, hrep2]
  exact congrArg String.mk (strip_tail_nl t.data)

/-! ### C2 (corrected) -/

/-- Field `a` of a parsed JSON object, as a string, used to separate two
parse results. -/
def probeA (o : Option Json) : String :=
  match o with
  | some (Json.obj fs) =>
    match jGet fs "a" with
    | some (Json.str s) => s
    | _ => "<other>"
  | _ => "<none>"

/-- C2 counterexample: the claim fails as stated.  (1) With a language tag
other than `json` (here `python`), the stripping removes only the backticks
and leaves the tag text, so the wrapped version of the empty JSON object no
longer parses.  (2) Even with the `json` tag, `str.replace` deletes *every*
occurrence of the fence marker, so a JSON text containing three backticks
inside a string literal parses to a different value after wrapping. -/
theorem C2_counterexample :
    (json_loads "\x7b\x7d").isSome = true ∧
    (json_loads (extractResponseText (wrapFence "python" "\x7b\x7d"))).isSome
      = false ∧
    (json_loads "\x7b\"a\": \"```\"\x7d").isSome = true ∧
    json_loads (extractResponseText (wrapFence "json" "\x7b\"a\": \"```\"\x7d"))
      ≠ json_loads "\x7b\"a\": \"```\"\x7d" := by
  refine ⟨rfl, rfl, rfl, ?_⟩
  intro h
  have hp := congrArg probeA h
  have h1 : probeA (json_loads (extractResponseText
      (wrapFence "json" "\x7b\"a\": \"```\"\x7d"))) = "" := rfl
  have h2 : probeA (json_loads "\x7b\"a\": \"```\"\x7d") = "```" := rfl
  rw [h1, h2] at hp
  exact absurd hp (by decide)

/-- C2 (amended): for every text `t` that contains no code-fence marker
(three backticks), and every response equal to `t` wrapped in leading and
trailing fence markers with either no language tag or the `json` tag, the
Background Analyzer's fence-stripping-then-parse step produces the same
parsed result as parsing `t.strip()` directly (the wrap inserts newlines
around `t`, so stripping surrounding whitespace is exactly what the code's
final `.strip()` leaves). -/
theorem C2_amended_fence_roundtrip (t tag : String)
    (htag : tag = "" ∨ tag = "json")
    (hnf : containsSeq fenceD t.data = false) :
    json_loads (extractResponseText (wrapFence tag t)) = json_loads (pyStrip t) := by
  cases htag with
  | inl h => subst h; rw [extract_wrap_bare t hnf]
  | inr h => subst h; rw [extract_wrap_json t hnf]

/-- Witness for C2 (amended): a one-field JSON object text wrapped with the
`json` tag. -/
theorem C2_witness :
    containsSeq fenceD ("\x7b\"k\": 1\x7d" : String).data = false ∧
    json_loads (extractResponseText (wrapFence "json" "\x7b\"k\": 1\x7d"))
      = json_loads (pyStrip "\x7b\"k\": 1\x7d") :=
  ⟨rfl, C2_amended_fence_roundtrip "\x7b\"k\": 1\x7d" "json" (Or.inr rfl) rfl⟩

end ChurnSpec
